import Mathlib

/-!
Verification of the voice-recorder/transcription app (`src/App.tsx`) against its
natural-language specification.

The file shallowly embeds the retained logic of `App.tsx`:

* the `Transcription` record and the transcript store (a Lean `List`,
  newest-first, mirroring `transcriptions` state);
* the `recognition.onresult` handler, which folds a batch of recognition
  results (the slice `event.results[event.resultIndex ..]`) into final and
  interim transcripts and either commits one record or updates the ephemeral
  interim transcript;
* persistence (`JSON.stringify` / `JSON.parse` of the record array) at the
  level of JSON values — the platform's text codec is the external storage
  capability, taken as the identity on JSON values;
* the session controller (`stopRecordingInternal`, `handleLanguageChange`,
  the `updateLevel` metering frame) as transitions on an explicit state
  record tracking the live resource handles the refs hold;
* the `downloadTranscriptions` export action.

JS machine numbers that matter here (confidence values, audio levels) are
modelled as `ℚ`; `Date.now()` readings as `ℕ`.  JS truthiness of
`confidence || 0.8` is modelled explicitly (absent or zero falls back to
`0.8`), and truthiness of the accumulated `finalTranscript` string is
non-emptiness.
-/

/-- A ranked alternative of one recognition result
(`SpeechRecognitionAlternative` in `types/speech.ts`).  `confidence = none`
models an engine that omits the score (`undefined` in JS). -/
structure SpeechAlt where
  transcript : String
  confidence : Option ℚ
  deriving Repr, DecidableEq

/-- One recognition result group (`SpeechRecognitionResult`).  `App.tsx` only
ever reads alternative `[0]`, so the embedding keeps just the top-ranked
alternative. -/
structure SpeechResult where
  alt : SpeechAlt
  isFinal : Bool
  deriving Repr, DecidableEq

/-- One stored transcription record (`interface Transcription` in
`App.tsx`). -/
structure Transcription where
  id : String
  text : String
  timestamp : String
  confidence : ℚ
  lang : String
  deriving Repr, DecidableEq

/-- The supported-language list of `App.tsx` (`supportedLanguages`), as
(code, name) pairs. -/
def supportedLanguages : List (String × String) :=
  [("en-US", "English (US)"),
   ("es-ES", "Español (España)"),
   ("fr-FR", "Français (France)"),
   ("de-DE", "Deutsch (Deutschland)"),
   ("it-IT", "Italiano (Italia)"),
   ("ja-JP", "日本語 (日本)"),
   ("ko-KR", "한국어 (대한민국)"),
   ("pt-BR", "Português (Brasil)"),
   ("ru-RU", "Русский (Россия)"),
   ("zh-CN", "中文 (简体)"),
   ("hi-IN", "हिन्दी (भारत)"),
   ("ar-SA", "العربية (السعودية)")]

/-- The codes of the supported languages. -/
def supportedLanguageCodes : List String := supportedLanguages.map Prod.fst

/-- The slice of component state that `recognition.onresult` reads and
writes: the transcript store (`transcriptions`, newest first) and the
ephemeral interim transcript (`currentTranscript`). -/
structure RecState where
  transcriptions : List Transcription
  currentTranscript : String
  deriving Repr, DecidableEq

/-- The `finalTranscript` accumulator of the `onresult` loop: left-to-right
over the batch, each final segment appends its transcript plus a space. -/
def finalTranscriptOf (batch : List SpeechResult) : String :=
  batch.foldl
    (fun acc r => if r.isFinal then acc ++ r.alt.transcript ++ " " else acc) ""

/-- The `interimTranscript` accumulator of the `onresult` loop: left-to-right
over the batch, each non-final segment appends its transcript. -/
def interimTranscriptOf (batch : List SpeechResult) : String :=
  batch.foldl
    (fun acc r => if r.isFinal then acc else acc ++ r.alt.transcript) ""

/-- JS `confidence || 0.8` (line 103 of `App.tsx`): an absent (`undefined`)
or zero — hence falsy — confidence falls back to `0.8`. -/
def confidenceOrDefault (c : Option ℚ) : ℚ :=
  match c with
  | none => 0.8
  | some c => if c = 0 then 0.8 else c

/-- The record `newTranscription` built by `onresult` when `finalTranscript`
is truthy: id is `Date.now().toString()`, text the trimmed final transcript,
confidence read from the top alternative of the last result of the batch
(`event.results[event.results.length - 1][0]`; the batch is nonempty whenever
this is built, so the `getLastD` default is never used). -/
def commitRecord (lang : String) (now : ℕ) (nowISO : String)
    (batch : List SpeechResult) : Transcription :=
  { id := toString now
    text := (finalTranscriptOf batch).trim
    timestamp := nowISO
    confidence := confidenceOrDefault (batch.getLastD ⟨⟨"", none⟩, false⟩).alt.confidence
    lang := lang }

/-- The `recognition.onresult` handler (lines 85–111 of `App.tsx`), applied
to one batch (the slice `event.results[event.resultIndex ..]`).  `now` and
`nowISO` are the `Date.now()` / `new Date().toISOString()` readings at the
event.  If the accumulated `finalTranscript` is truthy (non-empty) the new
record is prepended to the store and the interim transcript cleared;
otherwise only the interim transcript is replaced. -/
def onresult (lang : String) (now : ℕ) (nowISO : String)
    (batch : List SpeechResult) (s : RecState) : RecState :=
  if finalTranscriptOf batch = "" then
    { s with currentTranscript := interimTranscriptOf batch }
  else
    { transcriptions := commitRecord lang now nowISO batch :: s.transcriptions
      currentTranscript := "" }

/-- One `onresult` event: the processed batch together with the clock
readings at delivery. -/
structure BatchEvent where
  batch : List SpeechResult
  now : ℕ
  nowISO : String
  deriving Repr, DecidableEq

/-- Whether a batch contains at least one final segment. -/
def hasFinal (batch : List SpeechResult) : Bool :=
  batch.any (·.isFinal)

/-- Processing a sequence of `onresult` events in delivery order. -/
def processEvents (lang : String) (evs : List BatchEvent) (s : RecState) :
    RecState :=
  evs.foldl (fun st e => onresult lang e.now e.nowISO e.batch st) s

/-- The records committed by a sequence of events, in delivery order: one per
event whose batch holds at least one final segment. -/
def committedRecords (lang : String) (evs : List BatchEvent) :
    List Transcription :=
  (evs.filter (fun e => hasFinal e.batch)).map
    (fun e => commitRecord lang e.now e.nowISO e.batch)

/- Characterisation of the truthiness test `if (finalTranscript)`. -/

theorem string_append_eq_empty_iff (a b : String) :
    a ++ b = "" ↔ a = "" ∧ b = "" := by
  constructor
  · intro h
    have hd : a.data ++ b.data = [] := by
      have := congrArg String.data h
      simpa [String.data_append] using this
    rcases List.append_eq_nil.mp hd with ⟨ha, hb⟩
    exact ⟨String.ext ha, String.ext hb⟩
  · rintro ⟨rfl, rfl⟩
    rfl

theorem space_append_ne_empty (a t : String) : a ++ t ++ " " ≠ "" := by
  intro h
  rcases (string_append_eq_empty_iff (a ++ t) " ").mp h with ⟨-, hsp⟩
  exact absurd (congrArg String.data hsp) (by decide)

theorem finalTranscript_foldl_acc (batch : List SpeechResult) (acc : String) :
    batch.foldl
      (fun acc r => if r.isFinal then acc ++ r.alt.transcript ++ " " else acc)
      acc
    = acc ++ finalTranscriptOf batch := by
  induction batch generalizing acc with
  | nil => simp [finalTranscriptOf]
  | cons r rest ih =>
    simp only [finalTranscriptOf, List.foldl_cons] at *
    by_cases hf : r.isFinal
    · rw [if_pos hf, if_pos hf,
        ih (acc ++ r.alt.transcript ++ " "), ih ("" ++ r.alt.transcript ++ " ")]
      simp [String.append_assoc]
    · rw [if_neg hf, if_neg hf, ih acc]

theorem finalTranscriptOf_cons (r : SpeechResult) (rest : List SpeechResult) :
    finalTranscriptOf (r :: rest) =
      (if r.isFinal then "" ++ r.alt.transcript ++ " " else "") ++
        finalTranscriptOf rest := by
  have h1 : finalTranscriptOf (r :: rest) =
      List.foldl
        (fun acc x => if x.isFinal then acc ++ x.alt.transcript ++ " " else acc)
        (if r.isFinal then "" ++ r.alt.transcript ++ " " else "") rest := rfl
  rw [h1, finalTranscript_foldl_acc]

theorem finalTranscriptOf_eq_empty_iff (batch : List SpeechResult) :
    finalTranscriptOf batch = "" ↔ hasFinal batch = false := by
  induction batch with
  | nil =>
    constructor
    · intro _; rfl
    · intro _; rfl
  | cons r rest ih =>
    rw [finalTranscriptOf_cons, string_append_eq_empty_iff]
    by_cases hf : r.isFinal
    · simp only [hf, if_true]
      constructor
      · intro h
        exact absurd h.1 (space_append_ne_empty "" r.alt.transcript)
      · intro h
        simp [hasFinal, hf] at h
    · simp only [hf, if_false]
      constructor
      · intro h
        have hrest := ih.mp h.2
        simp [hasFinal, hf] at hrest ⊢
        exact hrest
      · intro h
        have hrest : hasFinal rest = false := by
          simp [hasFinal, hf] at h ⊢
          exact h
        exact ⟨rfl, ih.mpr hrest⟩

/- Case analysis of `onresult`. -/

theorem onresult_of_hasFinal (lang : String) (now : ℕ) (nowISO : String)
    (batch : List SpeechResult) (s : RecState) (h : hasFinal batch = true) :
    onresult lang now nowISO batch s =
      { transcriptions := commitRecord lang now nowISO batch :: s.transcriptions
        currentTranscript := "" } := by
  have hne : ¬ finalTranscriptOf batch = "" := by
    intro h0
    rw [(finalTranscriptOf_eq_empty_iff batch).mp h0] at h
    cases h
  simp [onresult, hne]

theorem onresult_of_noFinal (lang : String) (now : ℕ) (nowISO : String)
    (batch : List SpeechResult) (s : RecState) (h : hasFinal batch = false) :
    onresult lang now nowISO batch s =
      { transcriptions := s.transcriptions
        currentTranscript := interimTranscriptOf batch } := by
  have he : finalTranscriptOf batch = "" :=
    (finalTranscriptOf_eq_empty_iff batch).mpr h
  simp [onresult, he]

/-- Processing a sequence of events prepends the committed records, newest
first, to the initial store. -/
theorem processEvents_transcriptions (lang : String) (evs : List BatchEvent)
    (s : RecState) :
    (processEvents lang evs s).transcriptions =
      (committedRecords lang evs).reverse ++ s.transcriptions := by
  induction evs generalizing s with
  | nil => simp [processEvents, committedRecords]
  | cons e rest ih =>
    simp only [processEvents, List.foldl_cons] at *
    by_cases hf : hasFinal e.batch
    · rw [ih (onresult lang e.now e.nowISO e.batch s),
        onresult_of_hasFinal lang e.now e.nowISO e.batch s hf]
      simp [committedRecords, hf]
    · rw [ih (onresult lang e.now e.nowISO e.batch s),
        onresult_of_noFinal lang e.now e.nowISO e.batch s
          (Bool.not_eq_true _ ▸ eq_false_of_ne_true hf)]
      simp [committedRecords, hf]

/-- C1: for every sequence of recognition result batches processed by
`onresult`, the number of records in the transcript store after processing
equals its initial length plus the number of batches that contained at least
one final segment. -/
theorem store_length_after_processing (lang : String) (evs : List BatchEvent)
    (s : RecState) :
    (processEvents lang evs s).transcriptions.length =
      s.transcriptions.length +
        (evs.filter (fun e => hasFinal e.batch)).length := by
  rw [processEvents_transcriptions]
  simp [committedRecords, Nat.add_comm]

/-- C2: the store is newest-first — committing finalized utterances `U1`,
then `U2`, then `U3` from an empty store yields the stored order
`[U3, U2, U1]`, each new record inserted at the front. -/
theorem store_newest_first_three (lang : String) (e1 e2 e3 : BatchEvent)
    (h1 : hasFinal e1.batch = true) (h2 : hasFinal e2.batch = true)
    (h3 : hasFinal e3.batch = true) :
    (processEvents lang [e1, e2, e3] ⟨[], ""⟩).transcriptions =
      [commitRecord lang e3.now e3.nowISO e3.batch,
       commitRecord lang e2.now e2.nowISO e2.batch,
       commitRecord lang e1.now e1.nowISO e1.batch] := by
  rw [processEvents_transcriptions]
  simp [committedRecords, List.filter_cons, h1, h2, h3]

/-- Witness for C2 at three concrete single-segment final batches. -/
theorem store_newest_first_three_witness :
    hasFinal [⟨⟨"U1", some 0.9⟩, true⟩] = true ∧
    (processEvents "en-US"
        [⟨[⟨⟨"U1", some 0.9⟩, true⟩], 1, "T1"⟩,
         ⟨[⟨⟨"U2", some 0.9⟩, true⟩], 2, "T2"⟩,
         ⟨[⟨⟨"U3", some 0.9⟩, true⟩], 3, "T3"⟩] ⟨[], ""⟩).transcriptions =
      [commitRecord "en-US" 3 "T3" [⟨⟨"U3", some 0.9⟩, true⟩],
       commitRecord "en-US" 2 "T2" [⟨⟨"U2", some 0.9⟩, true⟩],
       commitRecord "en-US" 1 "T1" [⟨⟨"U1", some 0.9⟩, true⟩]] :=
  ⟨rfl,
   store_newest_first_three "en-US"
     ⟨[⟨⟨"U1", some 0.9⟩, true⟩], 1, "T1"⟩
     ⟨[⟨⟨"U2", some 0.9⟩, true⟩], 2, "T2"⟩
     ⟨[⟨⟨"U3", some 0.9⟩, true⟩], 3, "T3"⟩ rfl rfl rfl⟩

/-- C5: the ephemeral interim transcript after a batch is the concatenation
of the batch's non-final segments, except that a batch with a final segment
(in particular one yielding a non-empty final utterance) clears it; a batch
with no final segment leaves the store untouched and only updates the
interim value. -/
theorem onresult_interim_update (lang : String) (now : ℕ) (nowISO : String)
    (batch : List SpeechResult) (s : RecState) :
    (onresult lang now nowISO batch s).currentTranscript =
      (if hasFinal batch then "" else interimTranscriptOf batch) ∧
    (hasFinal batch = false →
      (onresult lang now nowISO batch s).transcriptions = s.transcriptions) := by
  by_cases hf : hasFinal batch
  · rw [onresult_of_hasFinal lang now nowISO batch s hf]
    simp [hf]
  · have hf' : hasFinal batch = false := eq_false_of_ne_true hf
    rw [onresult_of_noFinal lang now nowISO batch s hf']
    simp [hf']

/-- Witness for C5 at a concrete interim-only batch. -/
theorem onresult_interim_update_witness :
    (onresult "en-US" 7 "T" [⟨⟨"par", none⟩, false⟩, ⟨⟨"tial", none⟩, false⟩]
        ⟨[], "old"⟩).currentTranscript =
      (if hasFinal [⟨⟨"par", none⟩, false⟩, ⟨⟨"tial", none⟩, false⟩] then ""
       else interimTranscriptOf
         [⟨⟨"par", none⟩, false⟩, ⟨⟨"tial", none⟩, false⟩]) ∧
    (onresult "en-US" 7 "T" [⟨⟨"par", none⟩, false⟩, ⟨⟨"tial", none⟩, false⟩]
        ⟨[], "old"⟩).transcriptions = [] :=
  ⟨(onresult_interim_update "en-US" 7 "T"
      [⟨⟨"par", none⟩, false⟩, ⟨⟨"tial", none⟩, false⟩] ⟨[], "old"⟩).1,
   (onresult_interim_update "en-US" 7 "T"
      [⟨⟨"par", none⟩, false⟩, ⟨⟨"tial", none⟩, false⟩] ⟨[], "old"⟩).2 rfl⟩

/-- Counterexample for C6: two batches with final segments delivered at the
same `Date.now()` reading (same millisecond) are both assigned id `"5"`, so
the resulting store's ids are not pairwise distinct. -/
theorem duplicate_id_counterexample :
    ¬ ((processEvents "en-US"
        [⟨[⟨⟨"a", none⟩, true⟩], 5, "T1"⟩,
         ⟨[⟨⟨"b", none⟩, true⟩], 5, "T2"⟩]
        ⟨[], ""⟩).transcriptions.map (·.id)).Nodup := by
  decide

/-- C6 (amended): ids are pairwise distinct provided the `Date.now()`
readings at the committing batches render to pairwise distinct id strings
(in particular, when each commit happens in a distinct millisecond). -/
theorem distinct_ids_of_distinct_clock (lang : String) (evs : List BatchEvent)
    (h : ((evs.filter (fun e => hasFinal e.batch)).map
        (fun e => toString e.now)).Nodup) :
    ((processEvents lang evs ⟨[], ""⟩).transcriptions.map (·.id)).Nodup := by
  rw [processEvents_transcriptions]
  have hmap : (committedRecords lang evs).map (·.id) =
      (evs.filter (fun e => hasFinal e.batch)).map (fun e => toString e.now) := by
    simp only [committedRecords, List.map_map]
    rfl
  simp only [List.append_nil, List.map_reverse, List.nodup_reverse]
  rw [hmap]
  exact h

/-- Witness for amended C6 at two commits in distinct milliseconds. -/
theorem distinct_ids_of_distinct_clock_witness :
    ((([⟨[⟨⟨"a", none⟩, true⟩], 5, "T1"⟩,
        ⟨[⟨⟨"b", none⟩, true⟩], 6, "T2"⟩] : List BatchEvent).filter
          (fun e => hasFinal e.batch)).map (fun e => toString e.now)).Nodup ∧
    ((processEvents "en-US"
        [⟨[⟨⟨"a", none⟩, true⟩], 5, "T1"⟩,
         ⟨[⟨⟨"b", none⟩, true⟩], 6, "T2"⟩]
        ⟨[], ""⟩).transcriptions.map (·.id)).Nodup :=
  ⟨by decide,
   distinct_ids_of_distinct_clock "en-US"
     [⟨[⟨⟨"a", none⟩, true⟩], 5, "T1"⟩, ⟨[⟨⟨"b", none⟩, true⟩], 6, "T2"⟩]
     (by decide)⟩

/-- Counterexample for C8: a final batch whose last reported alternative
carries the (present) confidence score `0` stores confidence `0.8`, not the
reported `0` — so the stored record does not carry the reported
confidence. -/
theorem stored_confidence_counterexample :
    ((onresult "en-US" 1 "T" [⟨⟨"hi", some 0⟩, true⟩]
        ⟨[], ""⟩).transcriptions.map (·.confidence)) = [0.8] ∧
      (0.8 : ℚ) ≠ 0 := by
  constructor
  · rfl
  · norm_num

/-- C8 (amended): a final batch whose last result's top alternative omits
its confidence score, or reports the falsy score `0`, stores confidence
exactly `0.8`; when a nonzero confidence is present, the stored record
carries that confidence. -/
theorem stored_confidence_amended (lang : String) (now : ℕ) (nowISO : String)
    (batch : List SpeechResult) (s : RecState) (r : SpeechResult)
    (hlast : batch.getLast? = some r) (hf : hasFinal batch = true) :
    ((r.alt.confidence = none ∨ r.alt.confidence = some 0) →
      ((onresult lang now nowISO batch s).transcriptions.head?.map
        (·.confidence)) = some 0.8) ∧
    (∀ c : ℚ, c ≠ 0 → r.alt.confidence = some c →
      ((onresult lang now nowISO batch s).transcriptions.head?.map
        (·.confidence)) = some c) := by
  rw [onresult_of_hasFinal lang now nowISO batch s hf]
  constructor
  · rintro (hc | hc) <;>
      simp [commitRecord, List.getLastD_eq_getLast?, hlast, confidenceOrDefault,
        hc]
  · intro c hc0 hc
    simp [commitRecord, List.getLastD_eq_getLast?, hlast, confidenceOrDefault,
      hc, hc0]

/-- Witness for amended C8: an omitted confidence stores `0.8`, and a
present nonzero confidence is stored as reported. -/
theorem stored_confidence_amended_witness :
    ((onresult "en-US" 1 "T" [⟨⟨"x", none⟩, true⟩]
        ⟨[], ""⟩).transcriptions.head?.map (·.confidence)) = some 0.8 ∧
    ((onresult "en-US" 2 "T2" [⟨⟨"y", some (1/2)⟩, true⟩]
        ⟨[], ""⟩).transcriptions.head?.map (·.confidence)) = some (1/2) :=
  ⟨(stored_confidence_amended "en-US" 1 "T" [⟨⟨"x", none⟩, true⟩] ⟨[], ""⟩
      ⟨⟨"x", none⟩, true⟩ rfl rfl).1 (Or.inl rfl),
   (stored_confidence_amended "en-US" 2 "T2" [⟨⟨"y", some (1/2)⟩, true⟩]
      ⟨[], ""⟩ ⟨⟨"y", some (1/2)⟩, true⟩ rfl rfl).2 (1/2) (by norm_num) rfl⟩

/-- C10: a final batch whose last result's top alternative reports a
confidence equal to `0` stores confidence `0.8` — the falsy reported value
is replaced by the default, not stored as `0`. -/
theorem zero_confidence_defaulted (lang : String) (now : ℕ) (nowISO : String)
    (batch : List SpeechResult) (s : RecState) (r : SpeechResult)
    (hlast : batch.getLast? = some r) (hf : hasFinal batch = true)
    (hc : r.alt.confidence = some 0) :
    ((onresult lang now nowISO batch s).transcriptions.head?.map
        (·.confidence)) = some 0.8 ∧
      ¬ ((onresult lang now nowISO batch s).transcriptions.head?.map
        (·.confidence)) = some 0 := by
  rw [onresult_of_hasFinal lang now nowISO batch s hf]
  constructor
  · simp [commitRecord, List.getLastD_eq_getLast?, hlast, confidenceOrDefault,
      hc]
  · simp [commitRecord, List.getLastD_eq_getLast?, hlast, confidenceOrDefault,
      hc]
    norm_num

/-- Witness for C10 at a concrete zero-confidence final batch. -/
theorem zero_confidence_defaulted_witness :
    ((onresult "fr-FR" 9 "T9" [⟨⟨"bonjour", some 0⟩, true⟩]
        ⟨[], ""⟩).transcriptions.head?.map (·.confidence)) = some 0.8 ∧
      ¬ ((onresult "fr-FR" 9 "T9" [⟨⟨"bonjour", some 0⟩, true⟩]
        ⟨[], ""⟩).transcriptions.head?.map (·.confidence)) = some 0 :=
  zero_confidence_defaulted "fr-FR" 9 "T9" [⟨⟨"bonjour", some 0⟩, true⟩]
    ⟨[], ""⟩ ⟨⟨"bonjour", some 0⟩, true⟩ rfl rfl rfl

/-- The session-controller state: the `isRecording` / `audioLevel` /
`currentTranscript` / `selectedLang` state variables of `App` together with
the liveness of the resource handles held in refs — whether the recognition
session is active, whether the `MediaRecorder` is in state `"recording"`,
whether the `AudioContext` exists and is not closed, whether the analyser
node exists, and whether an animation-frame callback is currently
scheduled (`animationFrameRef.current`). -/
structure SessionState where
  isRecording : Bool
  audioLevel : ℚ
  currentTranscript : String
  selectedLang : String
  recognitionActive : Bool
  mediaRecorderRecording : Bool
  audioContextOpen : Bool
  analyserExists : Bool
  animationFramePending : Bool
  deriving Repr, DecidableEq

/-- `stopRecordingInternal` (lines 154–171 of `App.tsx`): stops the media
recorder and its tracks, stops recognition, closes the audio context,
cancels the pending animation frame, and resets `isRecording`, `audioLevel`
and `currentTranscript`. -/
def stopRecordingInternal (s : SessionState) : SessionState :=
  { s with
    mediaRecorderRecording := false
    recognitionActive := false
    audioContextOpen := false
    animationFramePending := false
    isRecording := false
    audioLevel := 0
    currentTranscript := "" }

/-- `handleLanguageChange` (lines 213–232 of `App.tsx`): records the new
language; if recording, stops recognition and the media recorder and resets
`isRecording`, `audioLevel` and `currentTranscript`.  Note it neither closes
the audio context nor cancels the pending animation frame. -/
def handleLanguageChange (langCode : String) (s : SessionState) :
    SessionState :=
  if s.isRecording then
    { s with
      selectedLang := langCode
      recognitionActive := false
      mediaRecorderRecording := false
      isRecording := false
      audioLevel := 0
      currentTranscript := "" }
  else
    { s with selectedLang := langCode }

/-- One firing of the pending `updateLevel` animation-frame callback
(lines 237–243 of `App.tsx`).  `level` is the normalized average the
callback computes from the analyser's frequency data (external input).  The
guard returns without rescheduling when the analyser is gone or its context
is closed; otherwise the callback publishes the level and requests the next
frame. -/
def updateLevel (level : ℚ) (s : SessionState) : SessionState :=
  if s.animationFramePending then
    if s.analyserExists = false ∨ s.audioContextOpen = false then
      { s with animationFramePending := false }
    else
      { s with audioLevel := level, animationFramePending := true }
  else s

/-- C4 evaluated at the failing input: from a recording state with a
scheduled metering frame, `stopRecordingInternal` (the manual-stop and
error-stop teardown) does cancel the frame, but `handleLanguageChange`
leaves the frame scheduled and the audio context open, so the callback
fires again and reschedules itself — the metering loop is not cancelled on
the language-change teardown path. -/
theorem metering_loop_language_change_leak :
    (stopRecordingInternal
      ⟨true, 1/2, "hel", "en-US", true, true, true, true, true⟩).animationFramePending
        = false ∧
    (handleLanguageChange "es-ES"
      ⟨true, 1/2, "hel", "en-US", true, true, true, true, true⟩).animationFramePending
        = true ∧
    (handleLanguageChange "es-ES"
      ⟨true, 1/2, "hel", "en-US", true, true, true, true, true⟩).audioContextOpen
        = true ∧
    (updateLevel (1/4) (handleLanguageChange "es-ES"
      ⟨true, 1/2, "hel", "en-US", true, true, true, true, true⟩)).animationFramePending
        = true :=
  ⟨rfl, rfl, rfl, rfl⟩

/-- C7: calling `handleLanguageChange` with a supported language code while
recording always yields state Idle, audio level `0` and an empty interim
transcript, whatever the prior interim content. -/
theorem language_change_while_recording (langCode : String) (s : SessionState)
    (_hsup : langCode ∈ supportedLanguageCodes) (hrec : s.isRecording = true) :
    (handleLanguageChange langCode s).isRecording = false ∧
    (handleLanguageChange langCode s).audioLevel = 0 ∧
    (handleLanguageChange langCode s).currentTranscript = "" ∧
    (handleLanguageChange langCode s).selectedLang = langCode := by
  simp [handleLanguageChange, hrec]

/-- Witness for C7 at a concrete recording state with nonempty interim
content. -/
theorem language_change_while_recording_witness :
    "fr-FR" ∈ supportedLanguageCodes ∧
    (handleLanguageChange "fr-FR"
      ⟨true, 3/4, "some interim", "en-US", true, true, true, true, true⟩).isRecording
        = false ∧
    (handleLanguageChange "fr-FR"
      ⟨true, 3/4, "some interim", "en-US", true, true, true, true, true⟩).audioLevel
        = 0 ∧
    (handleLanguageChange "fr-FR"
      ⟨true, 3/4, "some interim", "en-US", true, true, true, true, true⟩).currentTranscript
        = "" :=
  ⟨by decide,
   (language_change_while_recording "fr-FR"
      ⟨true, 3/4, "some interim", "en-US", true, true, true, true, true⟩
      (by decide) rfl).1,
   (language_change_while_recording "fr-FR"
      ⟨true, 3/4, "some interim", "en-US", true, true, true, true, true⟩
      (by decide) rfl).2.1,
   (language_change_while_recording "fr-FR"
      ⟨true, 3/4, "some interim", "en-US", true, true, true, true, true⟩
      (by decide) rfl).2.2.1⟩

/-- JSON values, the interchange form between the store and the durable
key/value storage.  The platform's `JSON.stringify` / `JSON.parse` text
codec (value to text and back) is the external storage capability and is
taken as the identity on these values; the repository's contribution is the
shape mapping between `Transcription` arrays and JSON values. -/
inductive Json where
  | str : String → Json
  | num : ℚ → Json
  | bool : Bool → Json
  | null : Json
  | arr : List Json → Json
  | obj : List (String × Json) → Json
  deriving Repr

/-- The JSON value `JSON.stringify` renders for one `Transcription`: a plain
object with the five fields in insertion order (`id`, `text`, `timestamp`,
`confidence`, `lang`), as the record literal at lines 99–105 of `App.tsx`
creates them. -/
def transcriptionToJson (t : Transcription) : Json :=
  Json.obj
    [("id", Json.str t.id), ("text", Json.str t.text),
     ("timestamp", Json.str t.timestamp),
     ("confidence", Json.num t.confidence), ("lang", Json.str t.lang)]

/-- `JSON.stringify(transcriptions)` (line 69 of `App.tsx`) at the
JSON-value level: the array of the records' JSON objects, in store order. -/
def saveStore (ts : List Transcription) : Json :=
  Json.arr (ts.map transcriptionToJson)

/-- Reading one record back from its parsed JSON value: the shape
`JSON.parse` yields for an object serialized by `transcriptionToJson`. -/
def jsonToTranscription : Json → Option Transcription
  | Json.obj [("id", Json.str i), ("text", Json.str x),
      ("timestamp", Json.str ts), ("confidence", Json.num c),
      ("lang", Json.str l)] => some ⟨i, x, ts, c, l⟩
  | _ => none

/-- Reading back a list of record values, in order. -/
def decodeRecords : List Json → Option (List Transcription)
  | [] => some []
  | j :: js =>
    match jsonToTranscription j, decodeRecords js with
    | some t, some ts => some (t :: ts)
    | _, _ => none

/-- `JSON.parse(storedTranscriptions)` (line 59 of `App.tsx`) at the
JSON-value level: an array parses to the ordered record sequence. -/
def loadStore : Json → Option (List Transcription)
  | Json.arr js => decodeRecords js
  | _ => none

theorem decodeRecords_map (ts : List Transcription) :
    decodeRecords (ts.map transcriptionToJson) = some ts := by
  induction ts with
  | nil => rfl
  | cons t rest ih =>
    have h1 : jsonToTranscription (transcriptionToJson t) = some t := by
      cases t
      rfl
    simp [decodeRecords, h1, ih]

/-- C3: serializing any record sequence with `saveStore` and loading it back
with `loadStore` reproduces the identical ordered sequence — the save/load
round trip is lossless. -/
theorem load_save_roundtrip (ts : List Transcription) :
    loadStore (saveStore ts) = some ts :=
  decodeRecords_map ts

/-- The outcome of one `downloadTranscriptions` call: the (unchanged) store
it leaves behind, the downloadable artifact content if one was produced, and
the user-visible notices raised. -/
structure DownloadOutcome where
  store : List Transcription
  artifact : Option String
  errorNotice : Option String
  successNotice : Option String
  deriving Repr, DecidableEq

/-- `downloadTranscriptions` (lines 257–276 of `App.tsx`): an empty store
raises the error toast and returns early with no artifact; otherwise the
export content is the records' `[<time> - <lang>] <text>` lines joined by
blank lines, offered as a download, with a success toast.  `fmtTime` models
the platform-locale `new Date(t.timestamp).toLocaleTimeString()`
rendering. -/
def downloadTranscriptions (fmtTime : String → String)
    (ts : List Transcription) : DownloadOutcome :=
  if ts.length = 0 then
    { store := ts
      artifact := none
      errorNotice := some "No transcriptions to download."
      successNotice := none }
  else
    { store := ts
      artifact := some (String.intercalate "\n\n" (ts.map (fun t =>
        "[" ++ fmtTime t.timestamp ++ " - " ++ t.lang ++ "] " ++ t.text)))
      errorNotice := none
      successNotice := some "Transcriptions downloaded" }

/-- C9: exporting an empty store produces no artifact, raises the
user-visible error notice, and leaves the store unchanged; exporting a
non-empty store produces an artifact and leaves the store unchanged. -/
theorem export_empty_guard (fmtTime : String → String)
    (ts : List Transcription) :
    (ts = [] →
      (downloadTranscriptions fmtTime ts).artifact = none ∧
      (downloadTranscriptions fmtTime ts).errorNotice.isSome = true ∧
      (downloadTranscriptions fmtTime ts).store = ts) ∧
    (ts ≠ [] →
      ∃ content,
        (downloadTranscriptions fmtTime ts).artifact = some content ∧
        (downloadTranscriptions fmtTime ts).errorNotice = none ∧
        (downloadTranscriptions fmtTime ts).store = ts) := by
  constructor
  · rintro rfl
    simp [downloadTranscriptions]
  · intro hne
    have hlen : ¬ ts.length = 0 := by
      simpa [List.length_eq_zero] using hne
    simp [downloadTranscriptions, hlen]

/-- Witness for C9: the empty store yields no artifact; a singleton store
yields one. -/
theorem export_empty_guard_witness :
    (downloadTranscriptions (fun s => s) []).artifact = none ∧
    (downloadTranscriptions (fun s => s)
      [⟨"1", "hello world", "T", 0.8, "en-US"⟩]).artifact ≠ none := by
  constructor
  · exact ((export_empty_guard (fun s => s) []).1 rfl).1
  · rcases (export_empty_guard (fun s => s)
        [⟨"1", "hello world", "T", 0.8, "en-US"⟩]).2 (by simp) with ⟨c, hc, -, -⟩
    simp [hc]
